import Mathlib

set_option autoImplicit false

namespace MarkdownTogether

/-! Shallow embedding of the markdowntogether real-time collaboration core.

Server side (Go, `markdown-editor-backend`): `pkg/types/types.go`,
`internal/models/document.go`, `internal/storage` (`MemoryStorage`) and
`internal/websocket/hub.go`, plus the websocket message handlers
(`internal/handlers`).  Client side (TypeScript, `markdown-editor`):
`src/hooks/useCollaboration.ts` and `src/hooks/useUndoRedo.ts`.

Strings are modelled at the representation each runtime actually indexes:
Go indexes `[]rune`, i.e. sequences of Unicode code points, modelled as
`List Char`; JavaScript indexes UTF-16 code units, modelled as `List Nat`
together with an explicit UTF-16 encoding of code points.  Wall-clock
timestamps (`time.Now()` / `new Date()`) are passed in as an explicit
`now : Nat` parameter.  Go map fields are modelled as functions from keys. -/

/-- Wire-level text operation (Go struct `types.Operation`; the client
`Operation` interface carries the same fields).  `content` is the string
field as a sequence of Unicode code points; a missing `content` or
`length` is the zero value (`[]` / `0`), matching Go zero values and the
client `|| ''` / `|| 0` defaults. -/
structure Operation where
  type : String
  position : Int
  content : List Char := []
  length : Int := 0
  userId : String := ""
  timestamp : Nat := 0
  version : Nat := 0
  deriving DecidableEq

/-- Go struct `types.Document`. -/
structure Document where
  id : String
  roomCode : String := ""
  title : String := ""
  content : List Char
  lastModified : Nat
  version : Nat
  deriving DecidableEq

/-- Error values produced along the document mutation path (the Go code
returns `storage.ErrDocumentNotFound` or `fmt.Errorf` values; only the
identity of the error matters here). -/
inductive OpError where
  | documentNotFound
  | invalidInsertPosition (p : Int)
  | invalidDeletePosition (p : Int)
  | unknownOperationType (t : String)
  deriving DecidableEq

/-- Outcome of Go `applyOperationToText`: a result string, a returned
error, or a Go runtime panic (which crashes the serving goroutine rather
than returning). -/
inductive TextResult where
  | ok (result : List Char)
  | error (e : OpError)
  | panicked
  deriving DecidableEq

/-- Go `DocumentService.applyOperationToText`
(`internal/models/document.go`).  Works on `runes := []rune(content)`.
Two expressions can raise a Go runtime panic in the `delete` arm:
`make([]rune, 0, len(runes)-op.Length)` panics when the capacity
`len(runes) - op.Length` is negative, and `runes[endPos:]` panics when
`endPos < 0` (the preceding clamp only lowers `endPos` to `len(runes)`,
it never raises a negative one). -/
def DocumentService.applyOperationToText (content : List Char) (op : Operation) : TextResult :=
  let runes := content
  if op.type = "insert" then
    if op.position < 0 ∨ (runes.length : Int) < op.position then
      .error (.invalidInsertPosition op.position)
    else
      .ok (runes.take op.position.toNat ++ op.content ++ runes.drop op.position.toNat)
  else if op.type = "delete" then
    if op.position < 0 ∨ (runes.length : Int) ≤ op.position then
      .error (.invalidDeletePosition op.position)
    else
      let endPos0 := op.position + op.length
      let endPos := if (runes.length : Int) < endPos0 then (runes.length : Int) else endPos0
      if (runes.length : Int) - op.length < 0 then
        .panicked
      else if endPos < 0 then
        .panicked
      else
        .ok (runes.take op.position.toNat ++ runes.drop endPos.toNat)
  else
    .error (.unknownOperationType op.type)

/-- Go `storage.MemoryStorage`, restricted to the fields the verified
claims touch (`documents` and `docUsers`; the `users` and `cursors` maps
are independent of these claims).  A Go map is a function from keys;
`docUsers` reads of an absent key yield the nil slice `[]`. -/
structure MemoryStorage where
  documents : String → Option Document
  docUsers : String → List String

/-- Go `MemoryStorage.GetDocument`: map lookup, `ErrDocumentNotFound`
when absent (the `none` case). -/
def MemoryStorage.getDocument (ms : MemoryStorage) (id : String) : Option Document :=
  ms.documents id

/-- Go `MemoryStorage.UpdateDocument`: looks up the stored document under
`doc.ID`; if absent returns `ErrDocumentNotFound`, otherwise stamps
`doc.LastModified`, sets `doc.Version = existing.Version + 1` and stores
`doc` back under `doc.ID`. -/
def MemoryStorage.updateDocument (ms : MemoryStorage) (doc : Document) (now : Nat) :
    Except OpError (MemoryStorage × Document) :=
  match ms.documents doc.id with
  | none => .error .documentNotFound
  | some existing =>
    let doc1 := { doc with lastModified := now, version := existing.version + 1 }
    .ok ({ ms with documents := fun k => if k = doc.id then some doc1 else ms.documents k }, doc1)

/-- Go `MemoryStorage.AddUserToDocument`: scans `ms.docUsers[documentID]`
for `userID` and returns early when present, otherwise appends. -/
def MemoryStorage.addUserToDocument (ms : MemoryStorage) (documentID userID : String) :
    MemoryStorage :=
  if userID ∈ ms.docUsers documentID then ms
  else
    { ms with
      docUsers := fun k =>
        if k = documentID then ms.docUsers documentID ++ [userID] else ms.docUsers k }

/-- Outcome of Go `DocumentService.ApplyOperation`: the updated document,
a returned error, or a propagated runtime panic. -/
inductive OpResult where
  | ok (doc : Document)
  | error (e : OpError)
  | panicked
  deriving DecidableEq

/-- Go `DocumentService.ApplyOperation` (`internal/models/document.go`).
`GetDocument` hands back the pointer stored in the `documents` map, so the
in-place field updates `doc.Content = newContent; doc.Version++;
doc.LastModified = ...` mutate the stored document itself; this is
modelled by writing `doc1` back under `documentID` before calling
`UpdateDocument`, which then finds `existing` pointing at the
already-incremented document and bumps `Version` a second time.  The
model tracks the Go heap faithfully for stores satisfying the invariant
`documents k = some d → d.id = k`, which `CreateDocument`,
`CreateDocumentWithID` and `UpdateDocument` all maintain; theorems about
this function assume it. -/
def DocumentService.applyOperation (ms : MemoryStorage) (documentID : String)
    (op : Operation) (now : Nat) : MemoryStorage × OpResult :=
  match ms.getDocument documentID with
  | none => (ms, .error .documentNotFound)
  | some doc =>
    match DocumentService.applyOperationToText doc.content op with
    | .panicked => (ms, .panicked)
    | .error e => (ms, .error e)
    | .ok newContent =>
      let doc1 := { doc with content := newContent, version := doc.version + 1, lastModified := now }
      let ms1 : MemoryStorage :=
        { ms with documents := fun k => if k = documentID then some doc1 else ms.documents k }
      match ms1.updateDocument doc1 now with
      | .error e => (ms1, .error e)
      | .ok (ms2, doc2) => (ms2, .ok doc2)

/-! Client side.  JavaScript strings are sequences of UTF-16 code units;
all client string indexing (`slice`, `.length`, character comparison)
works on code units, so client text is modelled as `List Nat` (each
element one code unit) and `String.prototype.slice` is modelled with its
ECMAScript negative-index/clamping normalization. -/

/-- ECMAScript `Array/String.prototype.slice(start, stop)` index
normalization: a negative argument counts from the end (clamped to 0), a
nonnegative one is clamped to the length; the result is the span between
the two normalized indices (empty when reversed). -/
def jsSlice {α : Type} (l : List α) (start stop : Int) : List α :=
  let n : Int := l.length
  let s := if start < 0 then max (n + start) 0 else min start n
  let e := if stop < 0 then max (n + stop) 0 else min stop n
  (l.take e.toNat).drop s.toNat

/-- ECMAScript one-argument `slice(start)`, i.e. `slice(start, length)`. -/
def jsSliceFrom {α : Type} (l : List α) (start : Int) : List α :=
  jsSlice l start l.length

/-- Client-side view of an `Operation`
(`markdown-editor/src/types/index.ts`): the `content` string as the
JavaScript runtime sees it, a sequence of UTF-16 code units.  `[]` models
both an absent `content` and `''` (the two are indistinguishable to the
client code, which only uses `operation.content || ''` and falsiness
tests), and `0` models an absent `length`. -/
structure TsOperation where
  type : String
  position : Int
  content : List Nat := []
  length : Int := 0
  userId : String := ""
  timestamp : Nat := 0
  version : Nat := 0
  deriving DecidableEq

/-- UTF-16 encoding of one Unicode code point: one unit below `0x10000`,
otherwise a surrogate pair. -/
def utf16EncodeChar (c : Char) : List Nat :=
  if c.toNat < 0x10000 then [c.toNat]
  else [0xD800 + (c.toNat - 0x10000) / 0x400, 0xDC00 + (c.toNat - 0x10000) % 0x400]

/-- UTF-16 encoding of a string (sequence of code points) as the sequence
of code units the JavaScript runtime indexes. -/
def utf16Encode (s : List Char) : List Nat :=
  (s.map utf16EncodeChar).flatten

/-- View of a wire operation as the client receives it: the same scalar
fields, with the `content` string materialized as UTF-16 code units. -/
def tsOfWire (op : Operation) : TsOperation :=
  { type := op.type, position := op.position, content := utf16Encode op.content,
    length := op.length, userId := op.userId, timestamp := op.timestamp,
    version := op.version }

namespace Client

/-- TypeScript `applyOperationToText` (`src/hooks/useCollaboration.ts`,
re-exported identically from `useUndoRedo.ts`): pure function over the
JavaScript string, hence over UTF-16 code units; the `default` arm and
all out-of-range positions fall through to `slice` clamping, nothing is
rejected. -/
def applyOperationToText (content : List Nat) (operation : TsOperation) : List Nat :=
  if operation.type = "insert" then
    jsSlice content 0 operation.position ++ operation.content ++ jsSliceFrom content operation.position
  else if operation.type = "delete" then
    jsSlice content 0 operation.position ++ jsSliceFrom content (operation.position + operation.length)
  else content

/-- TypeScript `createInverseOperation` (`src/hooks/useUndoRedo.ts`).
The inverse of an insert is a delete carrying no content, with
`length := operation.content?.length || 0` (a code-unit count); the
inverse of a delete needs the deleted text: `if (!operation.content)` is
a JavaScript falsiness test, so both an absent and an empty `content`
make it return `null`.  `timestamp: new Date()` is the `now` argument. -/
def createInverseOperation (operation : TsOperation) (now : Nat) : Option TsOperation :=
  if operation.type = "insert" then
    some { type := "delete", position := operation.position,
           length := (operation.content.length : Int),
           userId := operation.userId, timestamp := now, version := operation.version }
  else if operation.type = "delete" then
    if operation.content = [] then none
    else
      some { type := "insert", position := operation.position, content := operation.content,
             userId := operation.userId, timestamp := now, version := operation.version }
  else none

/-- The first `while` loop of `generateOperationsWithUndo`: the length of
the longest common prefix of the two code-unit sequences. -/
def commonPrefixLen : List Nat → List Nat → Nat
  | a :: as, b :: bs => if a = b then commonPrefixLen as bs + 1 else 0
  | _, _ => 0

/-- The second `while` loop of `generateOperationsWithUndo`, run on the
reversed texts: it counts matching trailing units while `oldEnd > i` and
`newEnd > i`, i.e. while both fuel counters (`oldText.length - i` and
`newText.length - i`) are positive. -/
def commonSuffixLoop : Nat → Nat → List Nat → List Nat → Nat
  | oldBound + 1, newBound + 1, a :: as, b :: bs =>
    if a = b then commonSuffixLoop oldBound newBound as bs + 1 else 0
  | _, _, _, _ => 0

/-- TypeScript `generateOperationsWithUndo` (`src/hooks/useUndoRedo.ts`):
single-hunk diff emitting at most one delete (carrying the removed text
for undo) followed by at most one insert.  `timestamp: new Date()` is the
`now` argument; `version: 0` is set by the caller later. -/
def generateOperationsWithUndo (oldText newText : List Nat) (userId : String) (now : Nat) :
    List TsOperation :=
  let i := commonPrefixLen oldText newText
  let k := commonSuffixLoop (oldText.length - i) (newText.length - i)
    oldText.reverse newText.reverse
  let oldEnd := oldText.length - k
  let newEnd := newText.length - k
  (if i < oldEnd then
    [{ type := "delete", position := (i : Int), length := ((oldEnd - i : Nat) : Int),
       content := jsSlice oldText (i : Int) (oldEnd : Int), userId := userId,
       timestamp := now, version := 0 }]
   else []) ++
  (if i < newEnd then
    [{ type := "insert", position := (i : Int),
       content := jsSlice newText (i : Int) (newEnd : Int), userId := userId,
       timestamp := now, version := 0 }]
   else [])

/-- One entry of the client undo history (`OperationHistoryItem`). -/
structure OperationHistoryItem where
  operation : TsOperation
  inverseOperation : TsOperation
  timestamp : Nat
  deriving DecidableEq

/-- The `useUndoRedo` hook state. -/
structure UndoRedoState where
  canUndo : Bool
  canRedo : Bool
  undoStack : List OperationHistoryItem
  redoStack : List OperationHistoryItem
  deriving DecidableEq

/-- Initial `useUndoRedo` state. -/
def initialUndoRedoState : UndoRedoState :=
  { canUndo := false, canRedo := false, undoStack := [], redoStack := [] }

/-- `maxHistorySize` in `useUndoRedo.ts`. -/
def maxHistorySize : Nat := 50

/-- TypeScript `addOperation` from `useUndoRedo`.  The guard
`!currentUserId || operation.userId !== currentUserId` skips recording
(`""` models the falsy undefined/empty id); a failed inverse also skips.
Otherwise the item is pushed, the stack is capped by `shift()` (drop the
oldest) when it exceeds `maxHistorySize`, and the redo stack is
cleared. -/
def addOperation (currentUserId : String) (st : UndoRedoState) (operation : TsOperation)
    (now : Nat) : UndoRedoState :=
  if currentUserId = "" ∨ operation.userId ≠ currentUserId then st
  else
    match createInverseOperation operation now with
    | none => st
    | some inverseOperation =>
      let historyItem : OperationHistoryItem :=
        { operation := operation, inverseOperation := inverseOperation, timestamp := now }
      let pushed := st.undoStack ++ [historyItem]
      let newUndoStack := if maxHistorySize < pushed.length then pushed.tail else pushed
      { canUndo := 0 < newUndoStack.length, canRedo := false,
        undoStack := newUndoStack, redoStack := [] }

/-- TypeScript `undo` from `useUndoRedo`: empty stack returns `null` and
changes nothing; otherwise the top item moves to the redo stack and its
inverse operation is returned. -/
def undo (st : UndoRedoState) : Option TsOperation × UndoRedoState :=
  match st.undoStack.getLast? with
  | none => (none, st)
  | some lastItem =>
    let newUndoStack := st.undoStack.dropLast
    let newRedoStack := st.redoStack ++ [lastItem]
    (some lastItem.inverseOperation,
     { canUndo := 0 < newUndoStack.length, canRedo := true,
       undoStack := newUndoStack, redoStack := newRedoStack })

/-- TypeScript `redo` from `useUndoRedo`: empty redo stack returns `null`
and changes nothing; otherwise the top item moves back to the undo stack
and its original operation is returned. -/
def redo (st : UndoRedoState) : Option TsOperation × UndoRedoState :=
  match st.redoStack.getLast? with
  | none => (none, st)
  | some lastUndoneItem =>
    let newRedoStack := st.redoStack.dropLast
    let newUndoStack := st.undoStack ++ [lastUndoneItem]
    (some lastUndoneItem.operation,
     { canUndo := true, canRedo := 0 < newRedoStack.length,
       undoStack := newUndoStack, redoStack := newRedoStack })

/-- One call into the `useUndoRedo` hook. -/
inductive UndoRedoEvent where
  | record (op : TsOperation) (now : Nat)
  | undoCall
  | redoCall

/-- Effect of one hook call on the state. -/
def stepUndoRedo (currentUserId : String) (st : UndoRedoState) :
    UndoRedoEvent → UndoRedoState
  | .record op now => addOperation currentUserId st op now
  | .undoCall => (undo st).2
  | .redoCall => (redo st).2

/-- State after a sequence of hook calls, starting from the initial
state. -/
def runUndoRedo (currentUserId : String) (events : List UndoRedoEvent) : UndoRedoState :=
  events.foldl (stepUndoRedo currentUserId) initialUndoRedoState

end Client

/-! Connection registry / hub (`internal/websocket/hub.go`) and the
websocket operation handler (`internal/handlers`).  A `*ws.Client`
pointer is modelled as a `Nat` heap address, with the heap of connection
records a function `Nat → WsClient`; a client's buffered `Send` channel
is its queue of undelivered outbound messages plus its capacity (256 at
creation), and `select { case client.Send <- msg: default: ... }`
succeeds exactly when the buffer is not full. -/

/-- Go `types.OperationPayload`. -/
structure OperationPayload where
  operation : Operation
  documentId : String
  deriving DecidableEq

/-- The serialized messages the modelled handler path broadcasts
(`types.WebSocketMessage` envelopes of type `operation` and
`document_update`). -/
inductive WireMsg where
  | operationMsg (payload : OperationPayload) (userId : String)
  | documentUpdateMsg (doc : Document)
  deriving DecidableEq

/-- One `ws.Client` connection record. -/
structure WsClient where
  userID : String := ""
  documentID : String := ""
  send : List WireMsg := []
  sendCap : Nat := 256
  closed : Bool := false
  deriving DecidableEq

/-- Go `websocket.Hub`: the client set and the `documentID -> clients`
room map, with the connection records themselves living in the `conns`
heap. -/
structure Hub where
  conns : Nat → WsClient
  clients : List Nat
  documents : List (String × List Nat)

/-- Lookup in the `documents` room map. -/
def lookupRoom : List (String × List Nat) → String → Option (List Nat)
  | [], _ => none
  | (k, v) :: rest, key => if k = key then some v else lookupRoom rest key

/-- Replace the member list stored under a key of the room map. -/
def setRoom : List (String × List Nat) → String → List Nat → List (String × List Nat)
  | [], _, _ => []
  | (k, v) :: rest, key, members =>
    if k = key then (k, members) :: rest else (k, v) :: setRoom rest key members

/-- Body of the `BroadcastToDocument` loop for one room member, acting on
the state (connection heap, `h.clients`, the room's member list): skip
`excludeClient`; enqueue when the member's send buffer has room
(`select` with `default`); otherwise close the channel and delete the
member from `h.clients` and from the room (`docClients`). -/
def broadcastStep (message : WireMsg) (excludeClient : Option Nat)
    (st : (Nat → WsClient) × List Nat × List Nat) (m : Nat) :
    (Nat → WsClient) × List Nat × List Nat :=
  if some m = excludeClient then st
  else
    let c := st.1 m
    if c.send.length < c.sendCap then
      (fun k => if k = m then { c with send := c.send ++ [message] } else st.1 k,
       st.2.1, st.2.2)
    else
      (fun k => if k = m then { c with closed := true } else st.1 k,
       st.2.1.erase m, st.2.2.erase m)

/-- Go `Hub.BroadcastToDocument`.  The Go `range` over the room's client
set visits each member once in unspecified order (deleting the current
entry mid-iteration is well defined); since the per-member effects touch
disjoint entries, visiting the member list in order is a faithful
model. -/
def Hub.broadcastToDocument (h : Hub) (documentID : String) (message : WireMsg)
    (excludeClient : Option Nat) : Hub :=
  match lookupRoom h.documents documentID with
  | none => h
  | some docClients =>
    let fin := docClients.foldl (broadcastStep message excludeClient)
      (h.conns, h.clients, docClients)
    { conns := fin.1, clients := fin.2.1, documents := setRoom h.documents documentID fin.2.2 }

/-- The server state the operation handler touches. -/
structure ServerState where
  storage : MemoryStorage
  hub : Hub

/-- Go `Handlers.handleOperationMessage` (the `MessageTypeOperation` arm
of `Handlers.processMessage`, which dispatches on the message type with
no registration check whatsoever): applies the operation to the document
named in the *payload*, then broadcasts the operation to the room named
by the *client's* `DocumentID` excluding the sender, and the document
update to that room without exclusion.  `none` models the propagated
runtime panic of `ApplyOperation`; an apply error is logged and the
handler returns. -/
def Handlers.handleOperationMessage (s : ServerState) (clientId : Nat)
    (payload : OperationPayload) (now : Nat) : Option ServerState :=
  let client := s.hub.conns clientId
  match DocumentService.applyOperation s.storage payload.documentId payload.operation now with
  | (_, .panicked) => none
  | (ms1, .error _) => some { s with storage := ms1 }
  | (ms1, .ok doc) =>
    let hub1 := s.hub.broadcastToDocument client.documentID
      (.operationMsg payload client.userID) (some clientId)
    let hub2 := hub1.broadcastToDocument client.documentID
      (.documentUpdateMsg doc) none
    some { storage := ms1, hub := hub2 }

/-! Helper lemmas about the ECMAScript slice model. -/

theorem List.drop_min_of_length_le {α : Type} (l : List α) (m k : Nat) (h : l.length ≤ k) :
    l.drop (min m k) = l.drop m := by
  rcases le_or_lt m k with h1 | h1
  · rw [min_eq_left h1]
  · rw [min_eq_right h1.le, List.drop_eq_nil_of_le h, List.drop_eq_nil_of_le (h.trans h1.le)]

theorem jsSlice_eq_take_drop {α : Type} (l : List α) (a b : Int) (ha : 0 ≤ a) (hb : 0 ≤ b) :
    jsSlice l a b = (l.take b.toNat).drop a.toNat := by
  simp only [jsSlice, if_neg (not_lt.mpr ha), if_neg (not_lt.mpr hb)]
  have h1 : (min b (l.length : Int)).toNat = min b.toNat l.length := by omega
  have h2 : (min a (l.length : Int)).toNat = min a.toNat l.length := by omega
  have h3 : l.take (min b.toNat l.length) = l.take b.toNat :=
    List.take_eq_take.mpr (by omega)
  rw [h1, h2, h3]
  exact List.drop_min_of_length_le _ _ _ (by simp)

theorem jsSliceFrom_eq_drop {α : Type} (l : List α) (a : Int) (ha : 0 ≤ a) :
    jsSliceFrom l a = l.drop a.toNat := by
  unfold jsSliceFrom
  rw [jsSlice_eq_take_drop l a (l.length : Int) ha (by positivity)]
  simp

theorem tsApply_insert_eq (c : List Nat) (op : TsOperation) (hType : op.type = "insert")
    (hp : 0 ≤ op.position) :
    Client.applyOperationToText c op =
      c.take op.position.toNat ++ op.content ++ c.drop op.position.toNat := by
  unfold Client.applyOperationToText
  rw [if_pos hType, jsSlice_eq_take_drop c 0 op.position le_rfl hp,
    jsSliceFrom_eq_drop c op.position hp]
  simp

theorem tsApply_delete_eq (c : List Nat) (op : TsOperation) (hType : op.type = "delete")
    (hp : 0 ≤ op.position) (hpl : 0 ≤ op.position + op.length) :
    Client.applyOperationToText c op =
      c.take op.position.toNat ++ c.drop (op.position + op.length).toNat := by
  unfold Client.applyOperationToText
  rw [if_neg (by rw [hType]; decide), if_pos hType,
    jsSlice_eq_take_drop c 0 op.position le_rfl hp,
    jsSliceFrom_eq_drop c _ hpl]
  simp

/-! Concrete stores and operations used by the counter-evaluations. -/

/-- A fresh document with content "Hi" and version 1 (the spec §8
scenario). -/
def docHi : Document := { id := "doc1", content := ['H', 'i'], lastModified := 0, version := 1 }

/-- A store holding only `docHi` under its own id. -/
def storeHi : MemoryStorage :=
  { documents := fun k => if k = "doc1" then some docHi else none, docUsers := fun _ => [] }

/-- A store with no documents at all. -/
def storeEmpty : MemoryStorage := { documents := fun _ => none, docUsers := fun _ => [] }

/-- The code points of "abc". -/
def stringAbc : List Char := ['a', 'b', 'c']

/-- A delete whose position is in bounds on "abc" but whose length
overruns the buffer. -/
def opDeleteLong : Operation := { type := "delete", position := 0, length := 4 }

/-- Claim C1: the spec requires `version` to increase by exactly 1 on
every successful `ApplyOperation`.  The code increments twice:
`GetDocument` returns the pointer stored in the map, `doc.Version++`
bumps the stored record in place, and `UpdateDocument` then sets
`Version = existing.Version + 1` on the same aliased record.  Applying
one valid insert to the version-1 document "Hi" returns version 3 and
stores version 3, not 2. -/
theorem claim_c1_version_double_increment :
    (DocumentService.applyOperation storeHi "doc1"
        { type := "insert", position := 2, content := ['!'] } 5).2 =
      .ok { id := "doc1", content := ['H', 'i', '!'], lastModified := 5, version := 3 } ∧
    ((DocumentService.applyOperation storeHi "doc1"
        { type := "insert", position := 2, content := ['!'] } 5).1.documents "doc1").map
      Document.version = some 3 := by
  constructor
  · decide
  · decide

/-- Claim C4: the claim says a delete is accepted iff
`0 ≤ position < len(content)` (and violating operations are rejected
with an error).  On "abc", the delete at position 0 with length 4 has
its position within those bounds, yet `applyOperationToText` panics —
`make([]rune, 0, len(runes)-op.Length)` is evaluated with capacity
`3 - 4 < 0` — instead of accepting the operation with the length clamped
to the buffer end as the adjacent `endPos` clamp intends. -/
theorem claim_c4_delete_length_overflow_panics :
    (0 ≤ opDeleteLong.position ∧ opDeleteLong.position < (stringAbc.length : Int)) ∧
    DocumentService.applyOperationToText stringAbc opDeleteLong = .panicked := by
  constructor
  · decide
  · decide

/-- Claim C3, counterexample: `ApplyOperation` does not always return
"either the updated document or an error" — a delete whose length
overruns the buffer makes it panic (crash), which is neither. -/
theorem claim_c3_counterexample :
    (DocumentService.applyOperation storeHi "doc1"
        { type := "delete", position := 0, length := 5 } 9).2 = .panicked := by
  decide

/-- Claim C3 (amended): whenever `ApplyOperation` returns an error
(document not found, invalid position, or unknown operation type), the
store is completely unchanged — the stored document keeps its content,
version and lastModified.  The hypothesis is the store invariant that a
document is keyed by its own id, which `CreateDocument`,
`CreateDocumentWithID` and `UpdateDocument` maintain. -/
theorem claim_c3_error_atomicity (ms : MemoryStorage) (documentID : String) (op : Operation)
    (now : Nat) (e : OpError)
    (hwf : ∀ d, ms.documents documentID = some d → d.id = documentID)
    (herr : (DocumentService.applyOperation ms documentID op now).2 = .error e) :
    (DocumentService.applyOperation ms documentID op now).1 = ms := by
  unfold DocumentService.applyOperation MemoryStorage.getDocument at herr ⊢
  cases hms : ms.documents documentID with
  | none => simp only [hms]
  | some doc =>
    have hid : doc.id = documentID := hwf doc hms
    simp only [hms] at herr ⊢
    cases htext : DocumentService.applyOperationToText doc.content op with
    | panicked => simp [htext] at herr
    | error e2 => simp only [htext]
    | ok newContent =>
      exfalso
      simp [htext, MemoryStorage.updateDocument, hid] at herr

/-- Witness for `claim_c3_error_atomicity`: applying to an absent
document errors and leaves the empty store untouched. -/
theorem claim_c3_error_atomicity_witness :
    (DocumentService.applyOperation storeEmpty "doc1"
        { type := "insert", position := 0 } 0).1 = storeEmpty :=
  claim_c3_error_atomicity storeEmpty "doc1" { type := "insert", position := 0 } 0
    .documentNotFound (fun d hd => by simp [storeEmpty] at hd) (by decide)

theorem take_append_of_length_eq {α : Type} (l1 l2 : List α) (n : Nat) (h : l1.length = n) :
    (l1 ++ l2).take n = l1 := by
  subst h; exact List.take_left l1 l2

theorem drop_append_of_length_eq {α : Type} (l1 l2 : List α) (n : Nat) (h : l1.length = n) :
    (l1 ++ l2).drop n = l2 := by
  subst h; exact List.drop_left l1 l2

/-- Claim C5, counterexample: a delete of length 0 on "a" is well formed
in the claim's sense — position in bounds, carried `content` equal to
the (empty) removed span, `length` equal to the content's length — yet
`createInverseOperation` returns `null` for it, because the empty carried
string is falsy; the round-trip law has no inverse to apply. -/
def opEmptyDelete : TsOperation :=
  { type := "delete", position := 0, length := 0, content := [], userId := "u" }

theorem claim_c5_counterexample :
    (opEmptyDelete.type = "delete" ∧ 0 ≤ opEmptyDelete.position ∧
     opEmptyDelete.position + opEmptyDelete.length ≤ (([97] : List Nat).length : Int) ∧
     opEmptyDelete.content =
       (([97] : List Nat).take (opEmptyDelete.position + opEmptyDelete.length).toNat).drop
         opEmptyDelete.position.toNat ∧
     opEmptyDelete.length = (opEmptyDelete.content.length : Int)) ∧
    Client.createInverseOperation opEmptyDelete 0 = none := by
  decide

/-- Claim C5 (amended): for every in-bounds insert, the inverse exists,
is a delete carrying no content (reconstructed from position and length
alone), and applying operation then inverse restores the text; for every
well-formed delete that carries a nonempty removed span, the inverse
exists and restores the text; a delete carrying no content (absent or
empty) has no inverse — `createInverseOperation` returns `null`
explicitly. -/
theorem claim_c5_apply_invert_round_trip (c : List Nat) (op : TsOperation) (now : Nat) :
    (op.type = "insert" → 0 ≤ op.position → op.position ≤ (c.length : Int) →
      ∃ inv, Client.createInverseOperation op now = some inv ∧ inv.type = "delete" ∧
        inv.content = [] ∧
        Client.applyOperationToText (Client.applyOperationToText c op) inv = c) ∧
    (op.type = "delete" → 0 ≤ op.position → op.position + op.length ≤ (c.length : Int) →
      op.content = (c.take (op.position + op.length).toNat).drop op.position.toNat →
      op.length = (op.content.length : Int) → op.content ≠ [] →
      ∃ inv, Client.createInverseOperation op now = some inv ∧ inv.type = "insert" ∧
        Client.applyOperationToText (Client.applyOperationToText c op) inv = c) ∧
    (op.type = "delete" → op.content = [] → Client.createInverseOperation op now = none) := by
  refine ⟨?_, ?_, ?_⟩
  · intro ht hp hple
    refine ⟨{ type := "delete", position := op.position,
              length := (op.content.length : Int), userId := op.userId,
              timestamp := now, version := op.version }, ?_, rfl, rfl, ?_⟩
    · simp [Client.createInverseOperation, ht]
    · have hpc : op.position.toNat ≤ c.length := by omega
      have htk : (c.take op.position.toNat).length = op.position.toNat := by
        simp [min_eq_left hpc]
      rw [tsApply_insert_eq c op ht hp,
        tsApply_delete_eq (c.take op.position.toNat ++ op.content ++ c.drop op.position.toNat)
          { type := "delete", position := op.position,
            length := (op.content.length : Int), userId := op.userId,
            timestamp := now, version := op.version }
          rfl hp (by show (0 : Int) ≤ op.position + (op.content.length : Int); omega)]
      rw [drop_append_of_length_eq (c.take op.position.toNat ++ op.content)
          (c.drop op.position.toNat) _ (by simp [htk]; omega),
        List.append_assoc,
        take_append_of_length_eq _ _ _ htk,
        List.take_append_drop]
  · intro ht hp hple hcontent hlen hne
    refine ⟨{ type := "insert", position := op.position, content := op.content,
              userId := op.userId, timestamp := now, version := op.version }, ?_, rfl, ?_⟩
    · simp [Client.createInverseOperation, ht, hne]
    · have hpl : 0 ≤ op.position + op.length := by omega
      have hpc : op.position.toNat ≤ c.length := by omega
      have htk : (c.take op.position.toNat).length = op.position.toNat := by
        simp [min_eq_left hpc]
      have hpq : op.position.toNat ≤ (op.position + op.length).toNat := by omega
      rw [tsApply_delete_eq c op ht hp hpl,
        tsApply_insert_eq (c.take op.position.toNat ++ c.drop (op.position + op.length).toNat)
          { type := "insert", position := op.position, content := op.content,
            userId := op.userId, timestamp := now, version := op.version }
          rfl hp,
        take_append_of_length_eq _ _ _ htk,
        drop_append_of_length_eq _ _ _ htk,
        hcontent]
      have hsub : c.take op.position.toNat =
          (c.take (op.position + op.length).toNat).take op.position.toNat := by
        rw [List.take_take, min_eq_left hpq]
      rw [hsub, List.take_append_drop, List.take_append_drop]
  · intro ht hc
    simp [Client.createInverseOperation, ht, hc]

/-- Witness for `claim_c5_apply_invert_round_trip`: concrete round trips
for an insert of "XY" at 1 into "ab" and a delete of "b" from "ab". -/
theorem claim_c5_apply_invert_round_trip_witness :
    (∃ inv, Client.createInverseOperation
        { type := "insert", position := 1, content := [88, 89], userId := "u" } 7 = some inv ∧
      inv.type = "delete" ∧ inv.content = [] ∧
      Client.applyOperationToText
        (Client.applyOperationToText [97, 98]
          { type := "insert", position := 1, content := [88, 89], userId := "u" }) inv =
        [97, 98]) ∧
    (∃ inv, Client.createInverseOperation
        { type := "delete", position := 1, length := 1, content := [98], userId := "u" } 7 =
          some inv ∧
      inv.type = "insert" ∧
      Client.applyOperationToText
        (Client.applyOperationToText [97, 98]
          { type := "delete", position := 1, length := 1, content := [98], userId := "u" }) inv =
        [97, 98]) := by
  constructor
  · exact (claim_c5_apply_invert_round_trip [97, 98]
      { type := "insert", position := 1, content := [88, 89], userId := "u" } 7).1
      rfl (by decide) (by decide)
  · exact (claim_c5_apply_invert_round_trip [97, 98]
      { type := "delete", position := 1, length := 1, content := [98], userId := "u" } 7).2.1
      rfl (by decide) (by decide) (by decide) (by decide) (by decide)

/-- Claim C10: `AddUserToDocument` is idempotent — a second identical
call leaves the member list exactly as after the first — the added user
is a member afterwards, and the operation preserves duplicate-freeness
of every member list, so a list that never had duplicates never acquires
one. -/
theorem claim_c10_add_user_idempotent (ms : MemoryStorage) (d u : String) :
    (ms.addUserToDocument d u).addUserToDocument d u = ms.addUserToDocument d u ∧
    u ∈ (ms.addUserToDocument d u).docUsers d ∧
    (∀ d', (ms.docUsers d').Nodup → ((ms.addUserToDocument d u).docUsers d').Nodup) := by
  by_cases hmem : u ∈ ms.docUsers d
  · refine ⟨?_, ?_, ?_⟩
    · simp [MemoryStorage.addUserToDocument, hmem]
    · simp [MemoryStorage.addUserToDocument, hmem]
    · intro d' hnd
      simpa [MemoryStorage.addUserToDocument, hmem] using hnd
  · have hstep : (ms.addUserToDocument d u).docUsers =
        fun k => if k = d then ms.docUsers d ++ [u] else ms.docUsers k := by
      simp [MemoryStorage.addUserToDocument, hmem]
    refine ⟨?_, ?_, ?_⟩
    · have hmem2 : u ∈ (ms.addUserToDocument d u).docUsers d := by
        rw [hstep]; simp
      simp [MemoryStorage.addUserToDocument, hmem, hmem2]
    · rw [hstep]; simp
    · intro d' hnd
      rw [hstep]
      by_cases hd : d' = d
      · subst hd
        simp only [if_pos rfl]
        simp [List.nodup_append, hnd, hmem]
      · simp only [if_neg hd]
        exact hnd

/-- Witness for `claim_c10_add_user_idempotent`: adding user "u" twice
to document "d" of the empty store equals adding it once, "u" is then a
member, and the singleton member list has no duplicates. -/
theorem claim_c10_add_user_idempotent_witness :
    (storeEmpty.addUserToDocument "d" "u").addUserToDocument "d" "u" =
      storeEmpty.addUserToDocument "d" "u" ∧
    "u" ∈ (storeEmpty.addUserToDocument "d" "u").docUsers "d" ∧
    ((storeEmpty.addUserToDocument "d" "u").docUsers "d").Nodup := by
  obtain ⟨h1, h2, h3⟩ := claim_c10_add_user_idempotent storeEmpty "d" "u"
  exact ⟨h1, h2, h3 "d" (by simp [storeEmpty])⟩

/-! Facts about the two scan loops of `generateOperationsWithUndo`. -/

theorem commonPrefixLen_le_left : ∀ (a b : List Nat), Client.commonPrefixLen a b ≤ a.length
  | [], b => by cases b <;> simp [Client.commonPrefixLen]
  | _ :: _, [] => by simp [Client.commonPrefixLen]
  | x :: xs, y :: ys => by
    by_cases h : x = y
    · simpa [Client.commonPrefixLen, h] using commonPrefixLen_le_left xs ys
    · simp [Client.commonPrefixLen, h]

theorem commonPrefixLen_le_right : ∀ (a b : List Nat), Client.commonPrefixLen a b ≤ b.length
  | [], b => by cases b <;> simp [Client.commonPrefixLen]
  | _ :: _, [] => by simp [Client.commonPrefixLen]
  | x :: xs, y :: ys => by
    by_cases h : x = y
    · simpa [Client.commonPrefixLen, h] using commonPrefixLen_le_right xs ys
    · simp [Client.commonPrefixLen, h]

theorem take_commonPrefixLen_eq : ∀ (a b : List Nat),
    a.take (Client.commonPrefixLen a b) = b.take (Client.commonPrefixLen a b)
  | [], b => by cases b <;> simp [Client.commonPrefixLen]
  | _ :: _, [] => by simp [Client.commonPrefixLen]
  | x :: xs, y :: ys => by
    by_cases h : x = y
    · subst h
      simp [Client.commonPrefixLen, take_commonPrefixLen_eq xs ys]
    · simp [Client.commonPrefixLen, h]

theorem commonSuffixLoop_le_left : ∀ (bo bn : Nat) (a b : List Nat),
    Client.commonSuffixLoop bo bn a b ≤ bo
  | 0, _, _, _ => by simp [Client.commonSuffixLoop]
  | _ + 1, 0, _, _ => by simp [Client.commonSuffixLoop]
  | _ + 1, _ + 1, [], _ => by simp [Client.commonSuffixLoop]
  | _ + 1, _ + 1, _ :: _, [] => by simp [Client.commonSuffixLoop]
  | bo + 1, bn + 1, x :: xs, y :: ys => by
    by_cases h : x = y
    · simpa [Client.commonSuffixLoop, h] using commonSuffixLoop_le_left bo bn xs ys
    · simp [Client.commonSuffixLoop, h]

theorem commonSuffixLoop_le_right : ∀ (bo bn : Nat) (a b : List Nat),
    Client.commonSuffixLoop bo bn a b ≤ bn
  | 0, _, _, _ => by simp [Client.commonSuffixLoop]
  | _ + 1, 0, _, _ => by simp [Client.commonSuffixLoop]
  | _ + 1, _ + 1, [], _ => by simp [Client.commonSuffixLoop]
  | _ + 1, _ + 1, _ :: _, [] => by simp [Client.commonSuffixLoop]
  | bo + 1, bn + 1, x :: xs, y :: ys => by
    by_cases h : x = y
    · simpa [Client.commonSuffixLoop, h] using commonSuffixLoop_le_right bo bn xs ys
    · simp [Client.commonSuffixLoop, h]

theorem take_commonSuffixLoop_eq : ∀ (bo bn : Nat) (a b : List Nat),
    a.take (Client.commonSuffixLoop bo bn a b) = b.take (Client.commonSuffixLoop bo bn a b)
  | 0, _, _, _ => by simp [Client.commonSuffixLoop]
  | _ + 1, 0, _, _ => by simp [Client.commonSuffixLoop]
  | _ + 1, _ + 1, [], b => by cases b <;> simp [Client.commonSuffixLoop]
  | _ + 1, _ + 1, _ :: _, [] => by simp [Client.commonSuffixLoop]
  | bo + 1, bn + 1, x :: xs, y :: ys => by
    by_cases h : x = y
    · subst h
      simp [Client.commonSuffixLoop, take_commonSuffixLoop_eq bo bn xs ys]
    · simp [Client.commonSuffixLoop, h]

theorem diff_splice_eq (A B : List Nat) (i oldEnd newEnd : Nat)
    (hpre : A.take i = B.take i) (hsuf : A.drop oldEnd = B.drop newEnd)
    (hin : i ≤ newEnd) :
    A.take i ++ (B.take newEnd).drop i ++ A.drop oldEnd = B := by
  rw [hpre, hsuf]
  have h1 : B.take i = (B.take newEnd).take i := by
    rw [List.take_take, min_eq_left hin]
  rw [h1, List.take_append_drop, List.take_append_drop]

/-- Claim C2: for every pair of client texts (code-unit sequences) the
operations emitted by `generateOperationsWithUndo`, applied to the old
text in order, yield exactly the new text; the emitted list is empty, a
single delete or insert, or one delete followed by one insert; and every
emitted delete carries, as its `content`, exactly the span
`[position, position+length)` of the old text it removes, with `length`
equal to that span's length. -/
theorem claim_c2_diff_apply_round_trip (A B : List Nat) (u : String) (now : Nat) :
    ((Client.generateOperationsWithUndo A B u now).foldl Client.applyOperationToText A = B) ∧
    (Client.generateOperationsWithUndo A B u now = [] ∨
      (∃ op, Client.generateOperationsWithUndo A B u now = [op] ∧
        (op.type = "delete" ∨ op.type = "insert")) ∨
      (∃ opd opi, Client.generateOperationsWithUndo A B u now = [opd, opi] ∧
        opd.type = "delete" ∧ opi.type = "insert")) ∧
    (∀ op ∈ Client.generateOperationsWithUndo A B u now, op.type = "delete" →
      0 ≤ op.position ∧ 0 ≤ op.length ∧
      op.content = (A.take (op.position + op.length).toNat).drop op.position.toNat ∧
      op.length = (op.content.length : Int)) := by
  have hgen : Client.generateOperationsWithUndo A B u now =
      (if Client.commonPrefixLen A B <
          A.length - Client.commonSuffixLoop (A.length - Client.commonPrefixLen A B)
            (B.length - Client.commonPrefixLen A B) A.reverse B.reverse then
        [{ type := "delete", position := (Client.commonPrefixLen A B : Int),
           length := ((A.length - Client.commonSuffixLoop (A.length - Client.commonPrefixLen A B)
              (B.length - Client.commonPrefixLen A B) A.reverse B.reverse -
              Client.commonPrefixLen A B : Nat) : Int),
           content := jsSlice A (Client.commonPrefixLen A B : Int)
             ((A.length - Client.commonSuffixLoop (A.length - Client.commonPrefixLen A B)
              (B.length - Client.commonPrefixLen A B) A.reverse B.reverse : Nat) : Int),
           userId := u, timestamp := now, version := 0 }]
      else []) ++
      (if Client.commonPrefixLen A B <
          B.length - Client.commonSuffixLoop (A.length - Client.commonPrefixLen A B)
            (B.length - Client.commonPrefixLen A B) A.reverse B.reverse then
        [{ type := "insert", position := (Client.commonPrefixLen A B : Int),
           content := jsSlice B (Client.commonPrefixLen A B : Int)
             ((B.length - Client.commonSuffixLoop (A.length - Client.commonPrefixLen A B)
              (B.length - Client.commonPrefixLen A B) A.reverse B.reverse : Nat) : Int),
           userId := u, timestamp := now, version := 0 }]
      else []) := rfl
  set i := Client.commonPrefixLen A B with hidef
  set k := Client.commonSuffixLoop (A.length - i) (B.length - i) A.reverse B.reverse with hkdef
  have hi1 : i ≤ A.length := commonPrefixLen_le_left A B
  have hi2 : i ≤ B.length := commonPrefixLen_le_right A B
  have hpre : A.take i = B.take i := take_commonPrefixLen_eq A B
  have hk1 : k ≤ A.length - i := commonSuffixLoop_le_left _ _ _ _
  have hk2 : k ≤ B.length - i := commonSuffixLoop_le_right _ _ _ _
  have hsufrev : A.reverse.take k = B.reverse.take k := take_commonSuffixLoop_eq _ _ _ _
  have hsuf : A.drop (A.length - k) = B.drop (B.length - k) := by
    rw [List.take_reverse, List.take_reverse] at hsufrev
    exact List.reverse_injective hsufrev
  have htkA : (A.take i).length = i := by simp [min_eq_left hi1]
  have hti : ((i : Nat) : Int).toNat = i := by omega
  have e1 : ((i : Nat) : Int).toNat = i := by omega
  have e2 : (((B.length - k : Nat)) : Int).toNat = B.length - k := by omega
  have hjsB : jsSlice B ((i : Nat) : Int) ((B.length - k : Nat) : Int) =
      (B.take (B.length - k)).drop i := by
    rw [jsSlice_eq_take_drop B _ _ (by omega) (by omega), e1, e2]
  have hjsA : jsSlice A ((i : Nat) : Int) ((A.length - k : Nat) : Int) =
      (A.take (A.length - k)).drop i := by
    have e4 : (((A.length - k : Nat)) : Int).toNat = A.length - k := by omega
    rw [jsSlice_eq_take_drop A _ _ (by omega) (by omega), e1, e4]
  have hlenA : ((A.take (A.length - k)).drop i).length = A.length - k - i := by
    simp [min_eq_left (show A.length - k ≤ A.length by omega)]
  rw [hgen]
  rcases lt_or_ge i (A.length - k) with hdelQ | hdelQ <;>
    rcases lt_or_ge i (B.length - k) with hinsQ | hinsQ
  · -- delete and insert
    rw [if_pos hdelQ, if_pos hinsQ]
    refine ⟨?_, ?_, ?_⟩
    · simp only [List.singleton_append, List.foldl_cons, List.foldl_nil]
      rw [tsApply_delete_eq A _ rfl
        (by show (0 : Int) ≤ ((i : Nat) : Int); omega)
        (by show (0 : Int) ≤ ((i : Nat) : Int) + ((A.length - k - i : Nat) : Int); omega)]
      have e3 : (((i : Nat) : Int) + ((A.length - k - i : Nat) : Int)).toNat = A.length - k := by
        omega
      rw [e1, e3,
        tsApply_insert_eq (A.take i ++ A.drop (A.length - k)) _ rfl
          (by show (0 : Int) ≤ ((i : Nat) : Int); omega)]
      show (A.take i ++ A.drop (A.length - k)).take ((i : Nat) : Int).toNat ++
          jsSlice B ((i : Nat) : Int) ((B.length - k : Nat) : Int) ++
          (A.take i ++ A.drop (A.length - k)).drop ((i : Nat) : Int).toNat = B
      rw [e1, hjsB, take_append_of_length_eq _ _ _ htkA, drop_append_of_length_eq _ _ _ htkA]
      exact diff_splice_eq A B i (A.length - k) (B.length - k) hpre hsuf (by omega)
    · exact Or.inr (Or.inr ⟨_, _, rfl, rfl, rfl⟩)
    · intro op hop hdel
      rw [List.singleton_append] at hop
      simp only [List.mem_cons, List.not_mem_nil, or_false] at hop
      rcases hop with rfl | rfl
      · refine ⟨by show (0 : Int) ≤ ((i : Nat) : Int); omega,
          by show (0 : Int) ≤ ((A.length - k - i : Nat) : Int); omega, ?_, ?_⟩
        · show jsSlice A ((i : Nat) : Int) ((A.length - k : Nat) : Int) =
            (A.take (((i : Nat) : Int) + ((A.length - k - i : Nat) : Int)).toNat).drop
              ((i : Nat) : Int).toNat
          rw [hjsA, e1, show (((i : Nat) : Int) + ((A.length - k - i : Nat) : Int)).toNat =
            A.length - k by omega]
        · show ((A.length - k - i : Nat) : Int) =
            ((jsSlice A ((i : Nat) : Int) ((A.length - k : Nat) : Int)).length : Int)
          rw [hjsA, hlenA]
      · simp at hdel
  · -- delete only
    rw [if_pos hdelQ, if_neg (not_lt.mpr hinsQ)]
    refine ⟨?_, ?_, ?_⟩
    · simp only [List.append_nil, List.foldl_cons, List.foldl_nil]
      rw [tsApply_delete_eq A _ rfl
        (by show (0 : Int) ≤ ((i : Nat) : Int); omega)
        (by show (0 : Int) ≤ ((i : Nat) : Int) + ((A.length - k - i : Nat) : Int); omega)]
      have e3 : (((i : Nat) : Int) + ((A.length - k - i : Nat) : Int)).toNat = A.length - k := by
        omega
      have hieq : i = B.length - k := by omega
      rw [e1, e3, hpre, hsuf, ← hieq, List.take_append_drop]
    · exact Or.inr (Or.inl ⟨_, by rw [List.append_nil], Or.inl rfl⟩)
    · intro op hop hdel
      rw [List.append_nil] at hop
      simp only [List.mem_singleton] at hop
      rcases hop with rfl
      · refine ⟨by show (0 : Int) ≤ ((i : Nat) : Int); omega,
          by show (0 : Int) ≤ ((A.length - k - i : Nat) : Int); omega, ?_, ?_⟩
        · show jsSlice A ((i : Nat) : Int) ((A.length - k : Nat) : Int) =
            (A.take (((i : Nat) : Int) + ((A.length - k - i : Nat) : Int)).toNat).drop
              ((i : Nat) : Int).toNat
          rw [hjsA, e1, show (((i : Nat) : Int) + ((A.length - k - i : Nat) : Int)).toNat =
            A.length - k by omega]
        · show ((A.length - k - i : Nat) : Int) =
            ((jsSlice A ((i : Nat) : Int) ((A.length - k : Nat) : Int)).length : Int)
          rw [hjsA, hlenA]
  · -- insert only
    rw [if_neg (not_lt.mpr hdelQ), if_pos hinsQ]
    refine ⟨?_, ?_, ?_⟩
    · simp only [List.nil_append, List.foldl_cons, List.foldl_nil]
      rw [tsApply_insert_eq A _ rfl (by show (0 : Int) ≤ ((i : Nat) : Int); omega)]
      show A.take ((i : Nat) : Int).toNat ++
          jsSlice B ((i : Nat) : Int) ((B.length - k : Nat) : Int) ++
          A.drop ((i : Nat) : Int).toNat = B
      have hieqA : i = A.length - k := by omega
      have hdropA : A.drop i = A.drop (A.length - k) := by rw [← hieqA]
      rw [e1, hjsB, hdropA]
      exact diff_splice_eq A B i (A.length - k) (B.length - k) hpre hsuf (by omega)
    · exact Or.inr (Or.inl ⟨_, by rw [List.nil_append], Or.inr rfl⟩)
    · intro op hop hdel
      rw [List.nil_append] at hop
      simp only [List.mem_singleton] at hop
      rcases hop with rfl
      simp at hdel
  · -- no operations
    rw [if_neg (not_lt.mpr hdelQ), if_neg (not_lt.mpr hinsQ)]
    refine ⟨?_, ?_, ?_⟩
    · simp only [List.append_nil, List.foldl_nil]
      have hieqA : i = A.length - k := by omega
      have hieqB : i = B.length - k := by omega
      have h4 : A.drop i = B.drop i := by
        rw [show A.drop i = A.drop (A.length - k) by rw [← hieqA], hsuf, ← hieqB]
      rw [← List.take_append_drop i A, hpre, h4, List.take_append_drop]
    · exact Or.inl (by simp)
    · intro op hop
      simp at hop


/-- The delete operation emitted by the diff of [1,2,3,4] against
[1,5,4]. -/
def opDelC2 : TsOperation :=
  { type := "delete", position := 1, length := 2, content := [2, 3], userId := "u" }

/-- Witness for `claim_c2_diff_apply_round_trip`: the diff of [1,2,3,4]
against [1,5,4] round-trips, and its delete operation carries the
removed span [2,3] verbatim. -/
theorem claim_c2_diff_apply_round_trip_witness :
    ((Client.generateOperationsWithUndo [1, 2, 3, 4] [1, 5, 4] "u" 0).foldl
        Client.applyOperationToText [1, 2, 3, 4] = [1, 5, 4]) ∧
    (0 ≤ opDelC2.position ∧ 0 ≤ opDelC2.length ∧
      opDelC2.content =
        (([1, 2, 3, 4] : List Nat).take (opDelC2.position + opDelC2.length).toNat).drop
          opDelC2.position.toNat ∧
      opDelC2.length = (opDelC2.content.length : Int)) :=
  ⟨(claim_c2_diff_apply_round_trip [1, 2, 3, 4] [1, 5, 4] "u" 0).1,
   (claim_c2_diff_apply_round_trip [1, 2, 3, 4] [1, 5, 4] "u" 0).2.2 opDelC2 (by decide) rfl⟩

/-- Claim C6, counterexample: the TypeScript Apply indexes UTF-16 code
units while the Go Apply indexes runes (code points), so they disagree
on any text with an astral character.  Inserting "X" at position 1 into
the two-code-point text "😀a": Go yields "😀Xa" while the client splits
the emoji's surrogate pair, yielding the unit sequence
D83D, 58, DE00, 61. -/
def textEmoji : List Char := [Char.ofNat 128512, 'a']

/-- The wire operation inserting "X" at position 1. -/
def opInsertX : Operation := { type := "insert", position := 1, content := ['X'] }

theorem claim_c6_counterexample :
    DocumentService.applyOperationToText textEmoji opInsertX =
      .ok [Char.ofNat 128512, 'X', 'a'] ∧
    Client.applyOperationToText (utf16Encode textEmoji) (tsOfWire opInsertX) ≠
      utf16Encode [Char.ofNat 128512, 'X', 'a'] := by
  decide

theorem utf16Encode_append (a b : List Char) :
    utf16Encode (a ++ b) = utf16Encode a ++ utf16Encode b := by
  simp [utf16Encode]

theorem utf16Encode_eq_map (s : List Char) (h : ∀ c ∈ s, c.toNat < 65536) :
    utf16Encode s = s.map Char.toNat := by
  induction s with
  | nil => rfl
  | cons c cs ih =>
    have hc : c.toNat < 65536 := h c (by simp)
    have hcs : ∀ x ∈ cs, x.toNat < 65536 := fun x hx => h x (by simp [hx])
    have hstep : utf16Encode (c :: cs) = utf16EncodeChar c ++ utf16Encode cs := by
      simp [utf16Encode]
    rw [hstep, ih hcs, utf16EncodeChar, if_pos hc]
    simp

/-- Claim C6 (amended): whenever the Go-side apply accepts the operation
and every code point of the content and of the operation's carried text
lies in the Basic Multilingual Plane (one UTF-16 unit per code point),
the TypeScript apply on the encoded text computes exactly the encoding
of the Go result; outside the BMP the two sides split surrogate pairs
apart (see the counterexample), and operations the Go side rejects or
panics on are applied by the clamping client anyway. -/
theorem claim_c6_bmp_agreement (text : List Char) (op : Operation) (result : List Char)
    (hok : DocumentService.applyOperationToText text op = .ok result)
    (htext : ∀ ch ∈ text, ch.toNat < 65536)
    (hcontent : ∀ ch ∈ op.content, ch.toNat < 65536) :
    Client.applyOperationToText (utf16Encode text) (tsOfWire op) = utf16Encode result := by
  have henc : utf16Encode text = text.map Char.toNat := utf16Encode_eq_map text htext
  unfold DocumentService.applyOperationToText at hok
  by_cases hins : op.type = "insert"
  · rw [if_pos hins] at hok
    by_cases hbound : op.position < 0 ∨ (text.length : Int) < op.position
    · rw [if_pos hbound] at hok; simp at hok
    · rw [if_neg hbound] at hok
      push_neg at hbound
      obtain ⟨hp, hple⟩ := hbound
      rw [TextResult.ok.injEq] at hok
      subst hok
      rw [tsApply_insert_eq (utf16Encode text) (tsOfWire op) hins hp]
      simp only [tsOfWire]
      rw [utf16Encode_append, utf16Encode_append,
        utf16Encode_eq_map _ (fun x hx => htext x (List.take_subset _ _ hx)),
        utf16Encode_eq_map _ hcontent,
        utf16Encode_eq_map _ (fun x hx => htext x (List.drop_subset _ _ hx)),
        henc, List.map_take, List.map_drop]
  · by_cases hdel : op.type = "delete"
    · rw [if_neg hins, if_pos hdel] at hok
      by_cases hbound : op.position < 0 ∨ (text.length : Int) ≤ op.position
      · rw [if_pos hbound] at hok; simp at hok
      · rw [if_neg hbound] at hok
        push_neg at hbound
        obtain ⟨hp, hplt⟩ := hbound
        by_cases hpanic1 : (text.length : Int) - op.length < 0
        · simp only [if_pos hpanic1] at hok; simp at hok
        · simp only [if_neg hpanic1] at hok
          by_cases hpanic2 :
              (if (text.length : Int) < op.position + op.length then (text.length : Int)
               else op.position + op.length) < 0
          · simp only [if_pos hpanic2] at hok; simp at hok
          · simp only [if_neg hpanic2] at hok
            rw [TextResult.ok.injEq] at hok
            subst hok
            have hpl : 0 ≤ op.position + op.length := by
              by_cases hlt : (text.length : Int) < op.position + op.length
              · omega
              · simp only [if_neg hlt] at hpanic2; omega
            rw [tsApply_delete_eq (utf16Encode text) (tsOfWire op) hdel hp hpl]
            simp only [tsOfWire]
            rw [utf16Encode_append,
              utf16Encode_eq_map _ (fun x hx => htext x (List.take_subset _ _ hx)),
              utf16Encode_eq_map _ (fun x hx => htext x (List.drop_subset _ _ hx)),
              henc, List.map_take, List.map_drop]
            show (text.map Char.toNat).take op.position.toNat ++
                (text.map Char.toNat).drop (op.position + op.length).toNat =
              (text.map Char.toNat).take op.position.toNat ++
                (text.map Char.toNat).drop
                  (if (text.length : Int) < op.position + op.length then (text.length : Int)
                   else op.position + op.length).toNat
            congr 1
            by_cases hlt : (text.length : Int) < op.position + op.length
            · have d1 : (text.map Char.toNat).drop (op.position + op.length).toNat = [] :=
                List.drop_eq_nil_of_le (by simp; omega)
              have d2 : (text.map Char.toNat).drop ((text.length : Int)).toNat = [] :=
                List.drop_eq_nil_of_le (by simp)
              rw [if_pos hlt, d1, d2]
            · rw [if_neg hlt]
    · rw [if_neg hins, if_neg hdel] at hok
      simp at hok


/-- Witness for `claim_c6_bmp_agreement`: inserting "X" at 1 into "ab"
agrees between the client and the relay. -/
theorem claim_c6_bmp_agreement_witness :
    Client.applyOperationToText (utf16Encode ['a', 'b'])
      (tsOfWire { type := "insert", position := 1, content := ['X'] }) =
      utf16Encode ['a', 'X', 'b'] :=
  claim_c6_bmp_agreement ['a', 'b'] { type := "insert", position := 1, content := ['X'] }
    ['a', 'X', 'b'] (by decide) (by decide) (by decide)

/-- Proof that one hook call preserves the combined stack budget. -/
theorem stepUndoRedo_bound (uid : String) (st : Client.UndoRedoState) (ev : Client.UndoRedoEvent)
    (h : st.undoStack.length + st.redoStack.length ≤ Client.maxHistorySize) :
    (Client.stepUndoRedo uid st ev).undoStack.length +
      (Client.stepUndoRedo uid st ev).redoStack.length ≤ Client.maxHistorySize := by
  cases ev with
  | record op now =>
    show (Client.addOperation uid st op now).undoStack.length +
      (Client.addOperation uid st op now).redoStack.length ≤ Client.maxHistorySize
    unfold Client.addOperation
    by_cases hg : uid = "" ∨ op.userId ≠ uid
    · rw [if_pos hg]; exact h
    · rw [if_neg hg]
      cases hinv : Client.createInverseOperation op now with
      | none => exact h
      | some inv =>
        simp only []
        by_cases hcap : Client.maxHistorySize < (st.undoStack ++
            [({ operation := op, inverseOperation := inv, timestamp := now } :
              Client.OperationHistoryItem)]).length
        · rw [if_pos hcap]
          simp only [List.length_nil, List.length_tail, List.length_append,
            List.length_cons, List.length_nil]
          omega
        · rw [if_neg hcap]
          simp only [List.length_append, List.length_cons, List.length_nil] at hcap ⊢
          omega
  | undoCall =>
    show (Client.undo st).2.undoStack.length + (Client.undo st).2.redoStack.length ≤
      Client.maxHistorySize
    unfold Client.undo
    cases hl : st.undoStack.getLast? with
    | none => exact h
    | some lastItem =>
      have hne : st.undoStack ≠ [] := by
        intro hnil; rw [hnil] at hl; simp at hl
      simp only [List.length_dropLast, List.length_append, List.length_cons, List.length_nil]
      have : 1 ≤ st.undoStack.length := List.length_pos.mpr hne
      omega
  | redoCall =>
    show (Client.redo st).2.undoStack.length + (Client.redo st).2.redoStack.length ≤
      Client.maxHistorySize
    unfold Client.redo
    cases hl : st.redoStack.getLast? with
    | none => exact h
    | some lastItem =>
      have hne : st.redoStack ≠ [] := by
        intro hnil; rw [hnil] at hl; simp at hl
      simp only [List.length_dropLast, List.length_append, List.length_cons, List.length_nil]
      have : 1 ≤ st.redoStack.length := List.length_pos.mpr hne
      omega

theorem foldl_stepUndoRedo_bound (uid : String) (events : List Client.UndoRedoEvent) :
    ∀ st : Client.UndoRedoState,
    st.undoStack.length + st.redoStack.length ≤ Client.maxHistorySize →
    (events.foldl (Client.stepUndoRedo uid) st).undoStack.length +
      (events.foldl (Client.stepUndoRedo uid) st).redoStack.length ≤ Client.maxHistorySize := by
  induction events with
  | nil => intro st h; simpa using h
  | cons ev evs ih =>
    intro st h
    simp only [List.foldl_cons]
    exact ih _ (stepUndoRedo_bound uid st ev h)

theorem tail_append_of_ne_nil {α : Type} (l1 l2 : List α) (h : l1 ≠ []) :
    (l1 ++ l2).tail = l1.tail ++ l2 := by
  cases l1 with
  | nil => exact absurd rfl h
  | cons x xs => rfl

/-- Claim C9: over every sequence of record/undo/redo calls both stacks
hold at most 50 items; recording an own, invertible operation pushes the
pair (op, invert(op)) and empties the redo stack, dropping the oldest
undo entry when the stack is at capacity; undo removes the top undo
item, returns its inverse operation and pushes the item onto the redo
stack; redo removes the top redo item, returns its original operation
and pushes it back onto the undo stack. -/
theorem claim_c9_undo_redo_stacks (uid : String) (st : Client.UndoRedoState)
    (op inv : TsOperation) (now : Nat) (item : Client.OperationHistoryItem)
    (l : List Client.OperationHistoryItem) :
    (∀ events : List Client.UndoRedoEvent,
      (Client.runUndoRedo uid events).undoStack.length ≤ Client.maxHistorySize ∧
      (Client.runUndoRedo uid events).redoStack.length ≤ Client.maxHistorySize) ∧
    (uid ≠ "" → op.userId = uid → Client.createInverseOperation op now = some inv →
      st.undoStack.length < Client.maxHistorySize →
      (Client.addOperation uid st op now).undoStack =
        st.undoStack ++ [{ operation := op, inverseOperation := inv, timestamp := now }] ∧
      (Client.addOperation uid st op now).redoStack = []) ∧
    (uid ≠ "" → op.userId = uid → Client.createInverseOperation op now = some inv →
      st.undoStack.length = Client.maxHistorySize →
      (Client.addOperation uid st op now).undoStack =
        st.undoStack.tail ++ [{ operation := op, inverseOperation := inv, timestamp := now }] ∧
      (Client.addOperation uid st op now).redoStack = []) ∧
    (st.undoStack = l ++ [item] →
      Client.undo st = (some item.inverseOperation,
        { canUndo := 0 < l.length, canRedo := true,
          undoStack := l, redoStack := st.redoStack ++ [item] })) ∧
    (st.redoStack = l ++ [item] →
      Client.redo st = (some item.operation,
        { canUndo := true, canRedo := 0 < l.length,
          undoStack := st.undoStack ++ [item], redoStack := l })) := by
  refine ⟨?_, ?_, ?_, ?_, ?_⟩
  · intro events
    have h := foldl_stepUndoRedo_bound uid events Client.initialUndoRedoState
      (by simp [Client.initialUndoRedoState, Client.maxHistorySize])
    unfold Client.runUndoRedo
    omega
  · intro h1 h2 h3 h4
    unfold Client.addOperation
    rw [if_neg (by simp [h1, h2])]
    simp only [h3]
    rw [if_neg (by
      simp only [List.length_append, List.length_cons, List.length_nil];
      simp only [Client.maxHistorySize] at h4 ⊢; omega)]
    exact ⟨rfl, trivial⟩
  · intro h1 h2 h3 h4
    have hne : st.undoStack ≠ [] := by
      intro hnil
      rw [hnil] at h4
      simp [Client.maxHistorySize] at h4
    unfold Client.addOperation
    rw [if_neg (by simp [h1, h2])]
    simp only [h3]
    rw [if_pos (by
      simp only [List.length_append, List.length_cons, List.length_nil];
      simp only [Client.maxHistorySize] at h4 ⊢; omega)]
    rw [tail_append_of_ne_nil _ _ hne]
    exact ⟨rfl, trivial⟩
  · intro h
    unfold Client.undo
    rw [h]
    simp only [List.getLast?_concat, List.dropLast_concat]
  · intro h
    unfold Client.redo
    rw [h]
    simp only [List.getLast?_concat, List.dropLast_concat]


/-- A user operation, its inverse, and singleton-stack states used by
the undo/redo witness. -/
def opW : TsOperation := { type := "insert", position := 0, content := [120], userId := "u" }

/-- The inverse `createInverseOperation` computes for `opW` at time 3. -/
def invW : TsOperation :=
  { type := "delete", position := 0, length := 1, userId := "u", timestamp := 3 }

/-- The history item recording `opW`. -/
def itemW : Client.OperationHistoryItem :=
  { operation := opW, inverseOperation := invW, timestamp := 3 }

/-- A state whose undo stack holds exactly `itemW`. -/
def stW : Client.UndoRedoState :=
  { canUndo := true, canRedo := false, undoStack := [itemW], redoStack := [] }

/-- A state whose redo stack holds exactly `itemW`. -/
def stR : Client.UndoRedoState :=
  { canUndo := false, canRedo := true, undoStack := [], redoStack := [itemW] }

/-- Witness for `claim_c9_undo_redo_stacks` at concrete inputs. -/
theorem claim_c9_undo_redo_stacks_witness :
    ((Client.runUndoRedo "u" []).undoStack.length ≤ Client.maxHistorySize) ∧
    ((Client.addOperation "u" Client.initialUndoRedoState opW 3).undoStack =
        Client.initialUndoRedoState.undoStack ++ [itemW] ∧
      (Client.addOperation "u" Client.initialUndoRedoState opW 3).redoStack = []) ∧
    (Client.undo stW = (some itemW.inverseOperation,
      { canUndo := 0 < ([] : List Client.OperationHistoryItem).length, canRedo := true,
        undoStack := [], redoStack := stW.redoStack ++ [itemW] })) ∧
    (Client.redo stR = (some itemW.operation,
      { canUndo := true, canRedo := 0 < ([] : List Client.OperationHistoryItem).length,
        undoStack := stR.undoStack ++ [itemW], redoStack := [] })) :=
  ⟨((claim_c9_undo_redo_stacks "u" Client.initialUndoRedoState opW invW 3 itemW []).1 []).1,
   (claim_c9_undo_redo_stacks "u" Client.initialUndoRedoState opW invW 3 itemW []).2.1
     (by decide) (by decide) (by decide) (by decide),
   (claim_c9_undo_redo_stacks "u" stW opW invW 3 itemW []).2.2.2.1 rfl,
   (claim_c9_undo_redo_stacks "u" stR opW invW 3 itemW []).2.2.2.2 rfl⟩


/-- The effect of one broadcast loop iteration on the member's own
connection record (when the member is not excluded). -/
def broadcastStepConn (message : WireMsg) (c : WsClient) : WsClient :=
  if c.send.length < c.sendCap then { c with send := c.send ++ [message] }
  else { c with closed := true }

theorem broadcastStep_conns_other (message : WireMsg) (excl : Option Nat)
    (st : (Nat → WsClient) × List Nat × List Nat) (m k : Nat) (hk : k ≠ m) :
    (broadcastStep message excl st m).1 k = st.1 k := by
  unfold broadcastStep
  by_cases h1 : some m = excl
  · simp [h1]
  · by_cases h2 : (st.1 m).send.length < (st.1 m).sendCap <;> simp [h1, h2, hk]

theorem broadcastStep_conns_self (message : WireMsg) (excl : Option Nat)
    (st : (Nat → WsClient) × List Nat × List Nat) (m : Nat) :
    (broadcastStep message excl st m).1 m =
      if some m = excl then st.1 m else broadcastStepConn message (st.1 m) := by
  unfold broadcastStep broadcastStepConn
  by_cases h1 : some m = excl
  · simp [h1]
  · by_cases h2 : (st.1 m).send.length < (st.1 m).sendCap <;> simp [h1, h2]

theorem broadcastStep_clients_sublist (message : WireMsg) (excl : Option Nat)
    (st : (Nat → WsClient) × List Nat × List Nat) (m : Nat) :
    (broadcastStep message excl st m).2.1.Sublist st.2.1 := by
  unfold broadcastStep
  by_cases h1 : some m = excl
  · simp [h1]
  · by_cases h2 : (st.1 m).send.length < (st.1 m).sendCap <;> simp [h1, h2]
    exact List.erase_sublist m st.2.1

theorem broadcastStep_room_sublist (message : WireMsg) (excl : Option Nat)
    (st : (Nat → WsClient) × List Nat × List Nat) (m : Nat) :
    (broadcastStep message excl st m).2.2.Sublist st.2.2 := by
  unfold broadcastStep
  by_cases h1 : some m = excl
  · simp [h1]
  · by_cases h2 : (st.1 m).send.length < (st.1 m).sendCap <;> simp [h1, h2]
    exact List.erase_sublist m st.2.2

theorem foldl_broadcastStep_conns_not_mem (message : WireMsg) (excl : Option Nat) :
    ∀ (rest : List Nat) (s : (Nat → WsClient) × List Nat × List Nat) (m : Nat), m ∉ rest →
      ((rest.foldl (broadcastStep message excl) s).1 m = s.1 m)
  | [], s, m, _ => rfl
  | r :: rest, s, m, hm => by
    have hmr : m ≠ r := fun h => hm (h ▸ List.mem_cons_self r rest)
    have hmrest : m ∉ rest := fun h => hm (List.mem_cons_of_mem r h)
    rw [List.foldl_cons,
      foldl_broadcastStep_conns_not_mem message excl rest _ m hmrest,
      broadcastStep_conns_other message excl s r m hmr]

theorem foldl_broadcastStep_clients_sublist (message : WireMsg) (excl : Option Nat) :
    ∀ (rest : List Nat) (s : (Nat → WsClient) × List Nat × List Nat),
      ((rest.foldl (broadcastStep message excl) s).2.1).Sublist s.2.1
  | [], s => List.Sublist.refl _
  | r :: rest, s => by
    rw [List.foldl_cons]
    exact (foldl_broadcastStep_clients_sublist message excl rest _).trans
      (broadcastStep_clients_sublist message excl s r)

theorem foldl_broadcastStep_room_sublist (message : WireMsg) (excl : Option Nat) :
    ∀ (rest : List Nat) (s : (Nat → WsClient) × List Nat × List Nat),
      ((rest.foldl (broadcastStep message excl) s).2.2).Sublist s.2.2
  | [], s => List.Sublist.refl _
  | r :: rest, s => by
    rw [List.foldl_cons]
    exact (foldl_broadcastStep_room_sublist message excl rest _).trans
      (broadcastStep_room_sublist message excl s r)

theorem foldl_broadcastStep_conns_mem (message : WireMsg) (excl : Option Nat) :
    ∀ (rest : List Nat) (s : (Nat → WsClient) × List Nat × List Nat) (m : Nat),
      m ∈ rest → rest.Nodup →
      ((rest.foldl (broadcastStep message excl) s).1 m =
        if some m = excl then s.1 m else broadcastStepConn message (s.1 m))
  | [], _, m, hm, _ => absurd hm (List.not_mem_nil m)
  | r :: rest, s, m, hm, hnd => by
    rw [List.foldl_cons]
    by_cases hmr : m = r
    · subst hmr
      have hmrest : m ∉ rest := (List.nodup_cons.mp hnd).1
      rw [foldl_broadcastStep_conns_not_mem message excl rest _ m hmrest,
        broadcastStep_conns_self message excl s m]
    · have hmrest : m ∈ rest := (List.mem_cons.mp hm).resolve_left hmr
      rw [foldl_broadcastStep_conns_mem message excl rest _ m hmrest
        (List.nodup_cons.mp hnd).2,
        broadcastStep_conns_other message excl s r m hmr]

theorem foldl_broadcastStep_evict_clients (message : WireMsg) (excl : Option Nat) :
    ∀ (rest : List Nat) (s : (Nat → WsClient) × List Nat × List Nat) (m : Nat),
      m ∈ rest → rest.Nodup → s.2.1.Nodup →
      some m ≠ excl → ¬ (s.1 m).send.length < (s.1 m).sendCap →
      m ∉ (rest.foldl (broadcastStep message excl) s).2.1
  | [], _, m, hm, _, _, _, _ => absurd hm (List.not_mem_nil m)
  | r :: rest, s, m, hm, hnd, hcl, hexcl, hfull => by
    rw [List.foldl_cons]
    by_cases hmr : m = r
    · subst hmr
      have hstep : (broadcastStep message excl s m).2.1 = s.2.1.erase m := by
        unfold broadcastStep
        rw [if_neg hexcl, if_neg hfull]
      intro hmem
      have hsub := foldl_broadcastStep_clients_sublist message excl rest
        (broadcastStep message excl s m)
      have hin : m ∈ (broadcastStep message excl s m).2.1 := hsub.subset hmem
      rw [hstep] at hin
      exact ((hcl.mem_erase_iff).mp hin).1 rfl
    · have hmrest : m ∈ rest := (List.mem_cons.mp hm).resolve_left hmr
      have hndrest := (List.nodup_cons.mp hnd).2
      have hcl2 : (broadcastStep message excl s r).2.1.Nodup :=
        (broadcastStep_clients_sublist message excl s r).nodup hcl
      have hconn : (broadcastStep message excl s r).1 m = s.1 m :=
        broadcastStep_conns_other message excl s r m hmr
      exact foldl_broadcastStep_evict_clients message excl rest _ m hmrest hndrest hcl2
        hexcl (by rw [hconn]; exact hfull)

theorem foldl_broadcastStep_evict_room (message : WireMsg) (excl : Option Nat) :
    ∀ (rest : List Nat) (s : (Nat → WsClient) × List Nat × List Nat) (m : Nat),
      m ∈ rest → rest.Nodup → s.2.2.Nodup →
      some m ≠ excl → ¬ (s.1 m).send.length < (s.1 m).sendCap →
      m ∉ (rest.foldl (broadcastStep message excl) s).2.2
  | [], _, m, hm, _, _, _, _ => absurd hm (List.not_mem_nil m)
  | r :: rest, s, m, hm, hnd, hrm, hexcl, hfull => by
    rw [List.foldl_cons]
    by_cases hmr : m = r
    · subst hmr
      have hstep : (broadcastStep message excl s m).2.2 = s.2.2.erase m := by
        unfold broadcastStep
        rw [if_neg hexcl, if_neg hfull]
      intro hmem
      have hsub := foldl_broadcastStep_room_sublist message excl rest
        (broadcastStep message excl s m)
      have hin : m ∈ (broadcastStep message excl s m).2.2 := hsub.subset hmem
      rw [hstep] at hin
      exact ((hrm.mem_erase_iff).mp hin).1 rfl
    · have hmrest : m ∈ rest := (List.mem_cons.mp hm).resolve_left hmr
      have hndrest := (List.nodup_cons.mp hnd).2
      have hrm2 : (broadcastStep message excl s r).2.2.Nodup :=
        (broadcastStep_room_sublist message excl s r).nodup hrm
      have hconn : (broadcastStep message excl s r).1 m = s.1 m :=
        broadcastStep_conns_other message excl s r m hmr
      exact foldl_broadcastStep_evict_room message excl rest _ m hmrest hndrest hrm2
        hexcl (by rw [hconn]; exact hfull)

theorem lookupRoom_setRoom_self : ∀ (docs : List (String × List Nat)) (key : String)
    (v w : List Nat), lookupRoom docs key = some w →
    lookupRoom (setRoom docs key v) key = some v
  | [], _, _, _, h => by simp [lookupRoom] at h
  | (k, u) :: rest, key, v, w, h => by
    by_cases hk : k = key
    · simp [lookupRoom, setRoom, hk]
    · simp only [lookupRoom, setRoom, if_neg hk] at h ⊢
      exact lookupRoom_setRoom_self rest key v w h

/-- Claim C7: `BroadcastToDocument` enqueues the message exactly on the
room's members other than `excludeClient` whose send buffer has room;
connections outside the room (and the excluded sender) are untouched; a
member with a full buffer gets no message, its channel is closed, and it
is deleted from the client set and from the room's member list, without
affecting delivery to the remaining members; and with the sender in a
room of N members and no buffer full, exactly the N−1 other members are
delivered to. -/
theorem claim_c7_broadcast_fanout (h : Hub) (documentID : String) (message : WireMsg)
    (excludeClient : Option Nat) (members : List Nat)
    (hmem : lookupRoom h.documents documentID = some members)
    (hnd : members.Nodup) (hcl : h.clients.Nodup) :
    (∀ m : Nat,
      ((h.broadcastToDocument documentID message excludeClient).conns m).send =
          (h.conns m).send ++ [message] ↔
        (m ∈ members ∧ some m ≠ excludeClient ∧
          (h.conns m).send.length < (h.conns m).sendCap)) ∧
    (∀ m : Nat, m ∉ members ∨ some m = excludeClient →
      (h.broadcastToDocument documentID message excludeClient).conns m = h.conns m) ∧
    (∀ m ∈ members, some m ≠ excludeClient →
      ¬ (h.conns m).send.length < (h.conns m).sendCap →
      ((h.broadcastToDocument documentID message excludeClient).conns m).closed = true ∧
      ((h.broadcastToDocument documentID message excludeClient).conns m).send =
        (h.conns m).send ∧
      m ∉ (h.broadcastToDocument documentID message excludeClient).clients ∧
      (∀ mem2, lookupRoom
          (h.broadcastToDocument documentID message excludeClient).documents documentID =
          some mem2 → m ∉ mem2)) ∧
    (∀ sender : Nat, excludeClient = some sender → sender ∈ members →
      (∀ m ∈ members, m ≠ sender → (h.conns m).send.length < (h.conns m).sendCap) →
      (members.erase sender).length = members.length - 1 ∧
      (∀ m : Nat,
        ((h.broadcastToDocument documentID message excludeClient).conns m).send =
            (h.conns m).send ++ [message] ↔ m ∈ members.erase sender)) := by
  have hconns : (h.broadcastToDocument documentID message excludeClient).conns =
      (members.foldl (broadcastStep message excludeClient) (h.conns, h.clients, members)).1 := by
    simp [Hub.broadcastToDocument, hmem]
  have hclients : (h.broadcastToDocument documentID message excludeClient).clients =
      (members.foldl (broadcastStep message excludeClient) (h.conns, h.clients, members)).2.1 := by
    simp [Hub.broadcastToDocument, hmem]
  have hdocs : (h.broadcastToDocument documentID message excludeClient).documents =
      setRoom h.documents documentID
        ((members.foldl (broadcastStep message excludeClient)
          (h.conns, h.clients, members)).2.2) := by
    simp [Hub.broadcastToDocument, hmem]
  have hgrow : ∀ c : WsClient, ¬ c.send = c.send ++ [message] := by
    intro c hc
    have := congrArg List.length hc
    simp at this
  have hdeliver : ∀ m : Nat,
      ((h.broadcastToDocument documentID message excludeClient).conns m).send =
          (h.conns m).send ++ [message] ↔
        (m ∈ members ∧ some m ≠ excludeClient ∧
          (h.conns m).send.length < (h.conns m).sendCap) := by
    intro m
    rw [hconns]
    constructor
    · intro hsend
      by_cases hm : m ∈ members
      · have := foldl_broadcastStep_conns_mem message excludeClient members
          (h.conns, h.clients, members) m hm hnd
        by_cases hex : some m = excludeClient
        · rw [if_pos hex] at this
          rw [this] at hsend
          exact absurd hsend (hgrow _)
        · rw [if_neg hex] at this
          by_cases hfull : (h.conns m).send.length < (h.conns m).sendCap
          · exact ⟨hm, hex, hfull⟩
          · unfold broadcastStepConn at this
            rw [if_neg hfull] at this
            rw [this] at hsend
            exact absurd hsend (hgrow _)
      · have := foldl_broadcastStep_conns_not_mem message excludeClient members
          (h.conns, h.clients, members) m hm
        rw [this] at hsend
        exact absurd hsend (hgrow _)
    · rintro ⟨hm, hex, hfull⟩
      have := foldl_broadcastStep_conns_mem message excludeClient members
        (h.conns, h.clients, members) m hm hnd
      rw [if_neg hex] at this
      unfold broadcastStepConn at this
      rw [if_pos hfull] at this
      rw [this]
  refine ⟨hdeliver, ?_, ?_, ?_⟩
  · intro m hm
    rw [hconns]
    rcases hm with hm | hm
    · exact foldl_broadcastStep_conns_not_mem message excludeClient members
        (h.conns, h.clients, members) m hm
    · by_cases hmem2 : m ∈ members
      · have := foldl_broadcastStep_conns_mem message excludeClient members
          (h.conns, h.clients, members) m hmem2 hnd
        rw [if_pos hm] at this
        exact this
      · exact foldl_broadcastStep_conns_not_mem message excludeClient members
          (h.conns, h.clients, members) m hmem2
  · intro m hm hex hfull
    have hconn := foldl_broadcastStep_conns_mem message excludeClient members
      (h.conns, h.clients, members) m hm hnd
    rw [if_neg hex] at hconn
    unfold broadcastStepConn at hconn
    rw [if_neg hfull] at hconn
    refine ⟨?_, ?_, ?_, ?_⟩
    · rw [hconns, hconn]
    · rw [hconns, hconn]
    · rw [hclients]
      exact foldl_broadcastStep_evict_clients message excludeClient members
        (h.conns, h.clients, members) m hm hnd hcl hex hfull
    · intro mem2 hlook
      rw [hdocs] at hlook
      have hself := lookupRoom_setRoom_self h.documents documentID
        ((members.foldl (broadcastStep message excludeClient)
          (h.conns, h.clients, members)).2.2) members hmem
      rw [hself] at hlook
      cases hlook
      exact foldl_broadcastStep_evict_room message excludeClient members
        (h.conns, h.clients, members) m hm hnd hnd hex hfull
  · intro sender hexeq hsender hallfree
    refine ⟨List.length_erase_of_mem hsender, ?_⟩
    intro m
    rw [hdeliver m]
    constructor
    · rintro ⟨hm, hex, _⟩
      rw [hnd.mem_erase_iff]
      refine ⟨?_, hm⟩
      intro heq
      exact hex (by rw [heq, hexeq])
    · intro hm
      obtain ⟨hne, hm2⟩ := hnd.mem_erase_iff.mp hm
      exact ⟨hm2, by rw [hexeq]; exact fun hc => hne (by injection hc),
        hallfree m hm2 hne⟩


/-- A broadcast message for the witness. -/
def msgW : WireMsg := .documentUpdateMsg docHi

/-- Heap of three connections in room doc1; connection 3 has a zero-size
send buffer (always full). -/
def connW : Nat → WsClient := fun n =>
  if n = 3 then { documentID := "doc1", sendCap := 0 } else { documentID := "doc1" }

/-- A hub with clients 1, 2, 3 registered in room doc1. -/
def hubW : Hub := { conns := connW, clients := [1, 2, 3], documents := [("doc1", [1, 2, 3])] }

/-- Witness for `claim_c7_broadcast_fanout`: broadcasting from sender 1
delivers to member 2, leaves the sender untouched, and evicts the
full-buffer member 3 (channel closed, removed from the client set). -/
theorem claim_c7_broadcast_fanout_witness :
    ((hubW.broadcastToDocument "doc1" msgW (some 1)).conns 2).send =
        (hubW.conns 2).send ++ [msgW] ∧
    (hubW.broadcastToDocument "doc1" msgW (some 1)).conns 1 = hubW.conns 1 ∧
    ((hubW.broadcastToDocument "doc1" msgW (some 1)).conns 3).closed = true ∧
    3 ∉ (hubW.broadcastToDocument "doc1" msgW (some 1)).clients := by
  obtain ⟨hdeliv, huntouched, hevict, hcount⟩ :=
    claim_c7_broadcast_fanout hubW "doc1" msgW (some 1) [1, 2, 3]
      (by decide) (by decide) (by decide)
  exact ⟨(hdeliv 2).mpr ⟨by decide, by decide, by decide⟩,
    huntouched 1 (Or.inr rfl),
    (hevict 3 (by decide) (by decide) (by decide)).1,
    (hevict 3 (by decide) (by decide) (by decide)).2.2.1⟩



/-- A hub with no registered clients and no rooms; every connection id
maps to a fresh unregistered record (empty `UserID`/`DocumentID`). -/
def hubEmpty : Hub := { conns := fun _ => {}, clients := [], documents := [] }

/-- Server state: the "Hi" document in storage, nobody connected. -/
def serverW : ServerState := { storage := storeHi, hub := hubEmpty }

/-- An operation message payload naming doc1 in its own body. -/
def opPayloadW : OperationPayload :=
  { operation := { type := "insert", position := 2, content := ['!'] }, documentId := "doc1" }

/-- Claim C8, counterexample: a connection that never sent a
join/create_room/join_room (its `UserID` and `DocumentID` are still
empty) sends an operation message naming doc1 in the payload; the
handler applies it — the stored content changes from "Hi" to "Hi!" —
so the message is neither rejected nor ignored. -/
theorem claim_c8_counterexample :
    (serverW.hub.conns 0).userID = "" ∧ (serverW.hub.conns 0).documentID = "" ∧
    ((Handlers.handleOperationMessage serverW 0 opPayloadW 5).map
        (fun s => (s.storage.documents "doc1").map Document.content)) =
      some (some ['H', 'i', '!']) ∧
    (serverW.storage.documents "doc1").map Document.content = some ['H', 'i'] := by
  decide

/-- Claim C8 (amended): `processMessage` dispatches on the message type
with no registration check, so an operation message from a connection
that has not yet joined is processed in full: the operation is applied
to the document named in its payload (content replaced, version bumped
by the double increment), and the two broadcasts go to the room keyed by
the client's still-empty `DocumentID` — reaching nobody when no room
with the empty key exists — rather than the message being queued or
rejected. -/
theorem claim_c8_unregistered_operation_applied (s : ServerState) (clientId : Nat)
    (payload : OperationPayload) (now : Nat) (doc : Document) (newContent : List Char)
    (hu : (s.hub.conns clientId).userID = "")
    (hd : (s.hub.conns clientId).documentID = "")
    (hdoc : s.storage.documents payload.documentId = some doc)
    (hid : doc.id = payload.documentId)
    (hok : DocumentService.applyOperationToText doc.content payload.operation = .ok newContent)
    (hnone : lookupRoom s.hub.documents "" = none) :
    ∃ s2, Handlers.handleOperationMessage s clientId payload now = some s2 ∧
      (s2.storage.documents payload.documentId).map Document.content = some newContent ∧
      (s2.storage.documents payload.documentId).map Document.version =
        some (doc.version + 2) ∧
      s2.hub = s.hub := by
  unfold Handlers.handleOperationMessage DocumentService.applyOperation
    MemoryStorage.getDocument
  simp only [hdoc, hok, MemoryStorage.updateDocument, hid]
  refine ⟨_, rfl, ?_, ?_, ?_⟩
  · simp
  · simp
  · rw [hd]
    unfold Hub.broadcastToDocument
    simp only [hnone]

/-- Witness for `claim_c8_unregistered_operation_applied` at the
concrete pre-join state. -/
theorem claim_c8_unregistered_operation_applied_witness :
    ∃ s2, Handlers.handleOperationMessage serverW 0 opPayloadW 5 = some s2 ∧
      (s2.storage.documents "doc1").map Document.content = some ['H', 'i', '!'] ∧
      (s2.storage.documents "doc1").map Document.version = some (docHi.version + 2) ∧
      s2.hub = serverW.hub :=
  claim_c8_unregistered_operation_applied serverW 0 opPayloadW 5 docHi ['H', 'i', '!']
    rfl rfl (by decide) rfl (by decide) rfl

end MarkdownTogether
